import Mathlib

/-!
Verification development for the NL→SQL lambda handler
(`lambda/nl2sql_handler.py`): a shallow embedding of the SQL guardrail
validator `sanitize_sql`, the throttling-retry wrapper
`invoke_bedrock_with_retry`, and the result-fetch/pagination logic of
`run_athena`, together with proofs about them.

Strings are modelled as `List Char`.  The Python regular expressions of the
source are embedded as executable scanning functions on the ASCII fragment
(the character classes `\s` and `\w` and `re.IGNORECASE` case folding are
modelled over ASCII code points, which is exact for ASCII inputs; every
pattern in the source is ASCII).  A raised `ValueError` is modelled as
`Except.error` carrying the exact message string the source raises.
-/

namespace NL2SQL

/-- The characters of a string literal. -/
def str (s : String) : List Char := s.toList

/-- Python `\s` on the ASCII fragment: space, TAB, LF, CR, VT, FF. -/
def isPySpace (c : Char) : Bool :=
  c.toNat = 32 || c.toNat = 9 || c.toNat = 10 || c.toNat = 13 ||
    c.toNat = 11 || c.toNat = 12

/-- Python `\w` on the ASCII fragment: `[A-Za-z0-9_]`. -/
def isWordChar (c : Char) : Bool :=
  (48 ≤ c.toNat && c.toNat ≤ 57) || (65 ≤ c.toNat && c.toNat ≤ 90) ||
    (97 ≤ c.toNat && c.toNat ≤ 122) || c.toNat = 95

/-- The characters admitted by the table-reference capture class
`[a-zA-Z0-9_\.]` of the `FROM`/`JOIN` scan. -/
def isTableChar (c : Char) : Bool := isWordChar c || c.toNat = 46

/-- ASCII case folding of a code point, as `re.IGNORECASE` performs it on
the ASCII fragment. -/
def lowerN (c : Char) : Nat :=
  if 65 ≤ c.toNat ∧ c.toNat ≤ 90 then c.toNat + 32 else c.toNat

/-- Case-insensitive character comparison. -/
def ciCharEq (a b : Char) : Bool := lowerN a == lowerN b

/-- Case-insensitive `w is a prefix of l`. -/
def ciIsPrefix : List Char → List Char → Bool
  | [], _ => true
  | _ :: _, [] => false
  | a :: as, b :: bs => ciCharEq a b && ciIsPrefix as bs

/-- `w` matches case-insensitively at the head of `l`, followed by a word
boundary (`\b`): end of input or a non-word character. -/
def wordAt (w l : List Char) : Bool :=
  ciIsPrefix w l &&
    (match l.drop w.length with
     | [] => true
     | c :: _ => !isWordChar c)

/-- Scan for a whole-word case-insensitive occurrence of `w`
(Python `\bw\b` under `re.search`, for `w` made of word characters); the
`Bool` argument records whether the previous character is a word
character. -/
def hasWordFrom (w : List Char) : Bool → List Char → Bool
  | _, [] => false
  | prevW, c :: cs => (!prevW && wordAt w (c :: cs)) || hasWordFrom w (isWordChar c) cs

/-- `re.search(r"\bw\b", l)` succeeds. -/
def hasWord (w l : List Char) : Bool := hasWordFrom w false l

/-- Python `str.rstrip` with an arbitrary character class. -/
def pyRstripBy (p : Char → Bool) (l : List Char) : List Char :=
  (l.reverse.dropWhile p).reverse

/-- Python `str.strip`/`str.rstrip`/`str.lstrip` specialisations used by the
source. -/
def pyStripBy (p : Char → Bool) (l : List Char) : List Char :=
  pyRstripBy p (l.dropWhile p)

/-- `str.strip()`: strip whitespace from both ends. -/
def pyStrip (l : List Char) : List Char := pyStripBy isPySpace l

/-- The statement terminator character. -/
def isSemi (c : Char) : Bool := c.toNat = 59

/-- `str.rstrip(";")`: remove every trailing terminator. -/
def pyRstripSemi (l : List Char) : List Char := pyRstripBy isSemi l

/-- `str.rstrip()`: remove trailing whitespace. -/
def pyRstripWs (l : List Char) : List Char := pyRstripBy isPySpace l

/-- `re.match(r"^\s*select\b", sql, re.IGNORECASE | re.DOTALL)` succeeds:
the first gate of `sanitize_sql`. -/
def matchSelectStart (l : List Char) : Bool :=
  wordAt (str "select") (l.dropWhile isPySpace)

/-- `re.search(r"\blimit\b", sql, re.IGNORECASE)` succeeds. -/
def hasLimitWord (l : List Char) : Bool := hasWord (str "limit") l

/-- The banned keywords of the final scan:
`\b(unload|create|drop|delete|update|insert|grant|msck|alter)\b`. -/
def bannedKeywords : List (List Char) :=
  [str "unload", str "create", str "drop", str "delete", str "update",
   str "insert", str "grant", str "msck", str "alter"]

/-- The banned-keyword `re.findall` produced at least one match. -/
def bannedFound (l : List Char) : Bool :=
  bannedKeywords.any (fun w => hasWord w l)

/-- Drop a case-insensitive occurrence of `w` from the head of `l`. -/
def dropCI : List Char → List Char → Option (List Char)
  | [], l => some l
  | _ :: _, [] => none
  | a :: as, b :: bs => if ciCharEq a b then dropCI as bs else none

/-- After `from`/`join` matched, match `\s+([a-zA-Z0-9_\.]+)`: at least one
whitespace character, then a nonempty greedy run of table characters.
Returns the captured token and the remaining input after it. -/
def captureTable (rest : List Char) : Option (List Char × List Char) :=
  let ws := rest.takeWhile isPySpace
  let rest2 := rest.dropWhile isPySpace
  let tok := rest2.takeWhile isTableChar
  if ws.isEmpty || tok.isEmpty then none
  else some (tok, rest2.dropWhile isTableChar)

/-- Attempt `\b(?:from|join)\s+([a-zA-Z0-9_\.]+)` at the current position;
`prevW` says whether the preceding character is a word character. -/
def tryFromJoin (prevW : Bool) (l : List Char) : Option (List Char × List Char) :=
  if prevW then none
  else
    match dropCI (str "from") l with
    | some rest => captureTable rest
    | none =>
      match dropCI (str "join") l with
      | some rest => captureTable rest
      | none => none

/-- Whether a captured token ends in a word character (the scan resumes
right after the token, so this is the boundary state there). -/
def tokEndsWord (tok : List Char) : Bool :=
  match tok.getLast? with
  | some c => isWordChar c
  | none => false

/-- The `re.findall` scanning loop for the table-reference pattern: try a
match at every position, left to right, non-overlapping.  `fuel` bounds the
number of characters consumed and is at least the input length at the top
call. -/
def findTablesAux : Nat → Bool → List Char → List (List Char)
  | 0, _, _ => []
  | _ + 1, _, [] => []
  | fuel + 1, prevW, c :: cs =>
    match tryFromJoin prevW (c :: cs) with
    | some (tok, rem) => tok :: findTablesAux fuel (tokEndsWord tok) rem
    | none => findTablesAux fuel (isWordChar c) cs

/-- `re.findall(r"\b(?:from|join)\s+([a-zA-Z0-9_\.]+)", sql, re.IGNORECASE)`. -/
def findTables (l : List Char) : List (List Char) :=
  findTablesAux l.length false l

/-- `t.strip().strip('"').strip("\x60").strip("'")` from the schema loop. -/
def stripQuotes (t : List Char) : List Char :=
  pyStripBy (fun c => c.toNat = 39)
    (pyStripBy (fun c => c.toNat = 96)
      (pyStripBy (fun c => c.toNat = 34)
        (pyStripBy isPySpace t)))

/-- The dot character of qualified table names. -/
def isDot (c : Char) : Bool := c.toNat = 46

/-- The schema segment `t.split(".")[0]` of a captured table token, when the
(unquoted) token contains a dot. -/
def schemaOfTok (t : List Char) : Option (List Char) :=
  let t2 := stripQuotes t
  if t2.any isDot then some (t2.takeWhile (fun c => !isDot c)) else none

/-- The schema loop of `sanitize_sql` raises no error: every captured
qualified table token has an allow-listed schema segment. -/
def schemasOk (allow : List (List Char)) (l : List Char) : Bool :=
  (findTables l).all (fun t =>
    match schemaOfTok t with
    | none => true
    | some sch => allow.contains sch)

/-- Decimal digits of a natural number (fuel-based, structural). -/
def natCharsAux : Nat → Nat → List Char
  | 0, _ => []
  | fuel + 1, n =>
    if n < 10 then [Nat.digitChar n]
    else natCharsAux fuel (n / 10) ++ [Nat.digitChar (n % 10)]

/-- Python `f"{n}"` for a natural number. -/
def natChars (n : Nat) : List Char := natCharsAux (n + 1) n

/-- Step 2 of `sanitize_sql`: if no `\blimit\b` is present, replace `sql`
with `sql.rstrip().rstrip(";") + f" LIMIT {MAX_ROWS}"`. -/
def limitStep (maxRows : Nat) (l : List Char) : List Char :=
  if hasLimitWord l then l
  else pyRstripSemi (pyRstripWs l) ++ str " LIMIT " ++ natChars maxRows

/-- Process-wide configuration: `MAX_ROWS` and `ALLOWED_SCHEMAS` (the
Python set is modelled as a duplicate-free list). -/
structure Config where
  maxRows : Nat
  allowedSchemas : List (List Char)

/-- Lexicographic (code-point) string order used by Python `sorted`. -/
def strLe : List Char → List Char → Bool
  | [], _ => true
  | _ :: _, [] => false
  | a :: as, b :: bs =>
    if a.toNat < b.toNat then true
    else if b.toNat < a.toNat then false
    else strLe as bs

/-- Insertion into a sorted list of strings. -/
def insertSorted (s : List Char) : List (List Char) → List (List Char)
  | [] => [s]
  | t :: ts => if strLe s t then s :: t :: ts else t :: insertSorted s ts

/-- Python `sorted` on a list of strings (insertion sort). -/
def pySorted : List (List Char) → List (List Char)
  | [] => []
  | s :: ss => insertSorted s (pySorted ss)

/-- A single-quote character, for Python `repr` of strings. -/
def squote : List Char := [Char.ofNat 39]

/-- Python `repr` of a list of plain strings, as interpolated by the f-string
`f"Query must use schemas in {sorted(ALLOWED_SCHEMAS)}"`. -/
def pyStrListRepr (xs : List (List Char)) : List Char :=
  str "[" ++ List.intercalate (str ", ") (xs.map (fun s => squote ++ s ++ squote)) ++ str "]"

/-- Message of the `NotSelect` rejection. -/
def notSelectMsg : List Char := str "Only SELECT queries are allowed."

/-- Message of the `MultipleStatements` rejection. -/
def multiStmtMsg : List Char := str "Multiple statements are not allowed."

/-- Message of the `BannedKeyword` rejection.  The source raises this fixed
string; the matched keyword is not part of the message. -/
def bannedMsg : List Char := str "Only read-only SELECT queries are allowed."

/-- Message of the `SchemaNotAllowed` rejection: it interpolates the sorted
allow-list, not the offending schema. -/
def schemaMsg (allow : List (List Char)) : List Char :=
  str "Query must use schemas in " ++ pyStrListRepr (pySorted allow)

/-- The guardrail validator `sanitize_sql`.  A raised `ValueError` is an
`Except.error` with the exact message string of the source. -/
def sanitize_sql (cfg : Config) (sql0 : List Char) : Except (List Char) (List Char) :=
  let sql := pyStrip sql0
  if !matchSelectStart sql then Except.error notSelectMsg
  else if (pyRstripSemi (pyStrip sql)).contains ';' then Except.error multiStmtMsg
  else
    let sql2 := limitStep cfg.maxRows sql
    if !schemasOk cfg.allowedSchemas sql2 then Except.error (schemaMsg cfg.allowedSchemas)
    else if bannedFound sql2 then Except.error bannedMsg
    else Except.ok sql2

/-! ## Resilient invoker: `invoke_bedrock_with_retry` -/

/-- Outcome of one `bedrock.invoke_model` call: a decoded reply, or a
`ClientError` carrying an error code. -/
inductive BAttempt (α : Type) where
  | ok (v : α)
  | clientErr (code : List Char)

/-- The retryable (throttling) error codes. -/
def isThrottleCode (c : List Char) : Bool :=
  c == str "ThrottlingException" || c == str "TooManyRequestsException"

/-- Whether an attempt outcome is a throttling `ClientError`. -/
def BAttempt.isThrottle {α : Type} : BAttempt α → Bool
  | .ok _ => false
  | .clientErr c => isThrottleCode c

/-- The sleep before retry number `i` (0-indexed), in milliseconds:
`min(8.0, (2 ** attempt) * 0.5) + random.uniform(0, 0.3)` seconds, with the
jitter draw modelled by the function `jit`.  All values are exact powers of
two scaled by 500, so rationals model the source's floats exactly. -/
def backoffMs (jit : Nat → ℚ) (i : Nat) : ℚ := min 8000 ((2 ^ i : ℚ) * 500) + jit i

/-- The retry loop body.  `remaining` is `max_attempts - 1 - attempt`, so
the source's retry condition `attempt < max_attempts - 1` is `remaining > 0`.
Returns the final outcome and the list of sleeps performed. -/
def invokeAux {α : Type} (out : Nat → BAttempt α) (jit : Nat → ℚ) :
    Nat → Nat → Except (List Char) α × List ℚ
  | 0, attempt =>
    match out attempt with
    | .ok v => (Except.ok v, [])
    | .clientErr code => (Except.error code, [])
  | r + 1, attempt =>
    match out attempt with
    | .ok v => (Except.ok v, [])
    | .clientErr code =>
      if isThrottleCode code then
        let res := invokeAux out jit r (attempt + 1)
        (res.1, backoffMs jit attempt :: res.2)
      else (Except.error code, [])

/-- `invoke_bedrock_with_retry(payload, max_attempts)`: run the loop from
`attempt = 0`.  `out i` is the outcome of the `i`-th `invoke_model` call. -/
def invoke_bedrock_with_retry {α : Type} (maxAttempts : Nat) (out : Nat → BAttempt α)
    (jit : Nat → ℚ) : Except (List Char) α × List ℚ :=
  invokeAux out jit (maxAttempts - 1) 0

/-! ## Async query runner: result fetch of `run_athena` -/

/-- One result cell: `c.get("VarCharValue")`. -/
abbrev Cell := Option (List Char)

/-- One page of `get_query_results`; a continuation token is present exactly
when further pages follow in the page sequence. -/
structure AthenaPage where
  rows : List (List Cell)

/-- The inner `for r in res["Rows"]` loop of the pagination: append each
row, stopping as soon as the accumulated count reaches `MAX_ROWS`. -/
def appendRows (maxRows : Nat) (acc : List (List Cell)) : List (List Cell) → List (List Cell)
  | [] => acc
  | r :: rs =>
    if maxRows ≤ acc.length + 1 then acc ++ [r]
    else appendRows maxRows (acc ++ [r]) rs

/-- The `while next_token and len(rows) < MAX_ROWS` pagination loop. -/
def pageLoop (maxRows : Nat) (acc : List (List Cell)) : List AthenaPage → List (List Cell)
  | [] => acc
  | p :: ps =>
    if acc.length < maxRows then pageLoop maxRows (appendRows maxRows acc p.rows) ps
    else acc

/-- The result-fetch phase of `run_athena` after a `SUCCEEDED` poll, over
the sequence of pages the engine would return.  The source takes the header
from `Rows[0]` of the first page with `col["VarCharValue"]` (a missing value
raises `KeyError` there; modelled by a default never exercised here), takes
all remaining rows of the first page unconditionally, and then paginates. -/
def run_athena (maxRows : Nat) (pages : List AthenaPage) :
    List (List Char) × List (List Cell) :=
  match pages with
  | [] => ([], [])
  | p0 :: rest =>
    ((p0.rows.headD []).map (fun c => c.getD []),
      pageLoop maxRows (p0.rows.drop 1) rest)

/-! ## Auxiliary definitions used only to state claims -/

/-- Modelled from the spec: "after stripping at most one trailing statement
terminator" — remove exactly one trailing `;` when one is present (the
source instead strips every trailing `;`). -/
def stripOneTrailingSemi (l : List Char) : List Char :=
  if l.getLast? = some ';' then l.dropLast else l

/-- Substring test, used to state whether an error message names a token. -/
def strContainsSub (needle hay : List Char) : Bool :=
  (List.range (hay.length + 1)).any (fun i => needle.isPrefixOf (hay.drop i))

/-- The configuration of the end-to-end scenarios: `MAX_ROWS = 100`,
`ALLOWED_SCHEMAS = {"nyc_taxi"}`. -/
def cfg100 : Config := ⟨100, [str "nyc_taxi"]⟩

/-- The attempt outcomes of a concrete retry scenario: two throttles, then
a success. -/
def throttleSeq : Nat → BAttempt Nat :=
  fun i => if i < 2 then BAttempt.clientErr (str "ThrottlingException") else BAttempt.ok 7

/-- Decidable equality of results, for evaluating concrete scenarios. -/
instance {ε α : Type} [DecidableEq ε] [DecidableEq α] : DecidableEq (Except ε α) := fun x y =>
  match x, y with
  | .error a, .error b =>
    if h : a = b then .isTrue (by rw [h]) else .isFalse (fun hc => h (Except.error.inj hc))
  | .error _, .ok _ => .isFalse (fun hc => Except.noConfusion hc)
  | .ok _, .error _ => .isFalse (fun hc => Except.noConfusion hc)
  | .ok a, .ok b =>
    if h : a = b then .isTrue (by rw [h]) else .isFalse (fun hc => h (Except.ok.inj hc))

/-! ## Foundational lemmas about the embedded string primitives -/

theorem pyRstripBy_eq_rdropWhile (p : Char → Bool) (l : List Char) :
    pyRstripBy p l = l.rdropWhile p := rfl

/-- Every list splits into its right-strip and an all-`p` suffix. -/
theorem pyRstripBy_append_suffix (p : Char → Bool) (l : List Char) :
    pyRstripBy p l ++ l.rtakeWhile p = l := by
  rw [pyRstripBy_eq_rdropWhile, List.rdropWhile, List.rtakeWhile, ← List.reverse_append,
    List.takeWhile_append_dropWhile, List.reverse_reverse]

theorem dropWhile_cons_eq_self {p : Char → Bool} {c : Char} {r : List Char}
    (h : (c :: r).dropWhile p = c :: r) : p c = false := by
  by_contra hc
  rw [Bool.not_eq_false] at hc
  rw [List.dropWhile_cons_of_pos hc] at h
  have := congrArg List.length h
  have hle : (List.dropWhile p r).length ≤ r.length :=
    (List.dropWhile_suffix p).sublist.length_le
  simp at this
  omega

theorem dropWhile_cons_of_head_false {p : Char → Bool} {c : Char} (r : List Char)
    (h : p c = false) : (c :: r).dropWhile p = c :: r := by
  rw [List.dropWhile_cons_of_neg (by simp [h])]

/-- Right-stripping preserves the absence of a leading `p`-character. -/
theorem dropWhile_pyRstripBy {p : Char → Bool} {l : List Char}
    (h : l.dropWhile p = l) : (pyRstripBy p l).dropWhile p = pyRstripBy p l := by
  cases hX : pyRstripBy p l with
  | nil => rfl
  | cons c t =>
    obtain ⟨s, hs⟩ := List.rdropWhile_prefix p l
    rw [← pyRstripBy_eq_rdropWhile, hX] at hs
    rw [← hs] at h
    have hc : p c = false := by
      rcases List.dropWhile_eq_self_iff.mp h (by simp) with hc
      simpa using hc
    exact dropWhile_cons_of_head_false t hc

theorem pyStrip_dropWhile (l : List Char) :
    (pyStrip l).dropWhile isPySpace = pyStrip l :=
  dropWhile_pyRstripBy (List.dropWhile_idempotent _ _)

theorem pyStrip_idem (l : List Char) : pyStrip (pyStrip l) = pyStrip l := by
  show pyRstripBy isPySpace ((pyStrip l).dropWhile isPySpace) = pyStrip l
  rw [pyStrip_dropWhile]
  show (pyStrip l).rdropWhile isPySpace = pyStrip l
  have : pyStrip l = (l.dropWhile isPySpace).rdropWhile isPySpace := rfl
  rw [this, List.rdropWhile_idempotent]

/-! ## Character-class facts -/

theorem isWordChar_of_pySpace {c : Char} (h : isPySpace c = true) : isWordChar c = false := by
  simp only [isPySpace, Bool.or_eq_true, decide_eq_true_eq] at h
  simp only [isWordChar, Bool.or_eq_true, Bool.and_eq_true, decide_eq_true_eq,
    Bool.or_eq_false_iff, Bool.and_eq_false_iff, decide_eq_false_iff_not]
  omega

theorem ciCharEq_word_space {a c : Char} (ha : isWordChar a = true)
    (hc : isPySpace c = true ∨ isSemi c = true) : ciCharEq a c = false := by
  simp only [isWordChar, Bool.or_eq_true, Bool.and_eq_true, decide_eq_true_eq] at ha
  have hc' : c.toNat = 32 ∨ c.toNat = 9 ∨ c.toNat = 10 ∨ c.toNat = 13 ∨
      c.toNat = 11 ∨ c.toNat = 12 ∨ c.toNat = 59 := by
    rcases hc with hc | hc <;>
      simp only [isPySpace, isSemi, Bool.or_eq_true, decide_eq_true_eq] at hc <;> tauto
  simp only [ciCharEq, lowerN, beq_eq_false_iff_ne, ne_eq]
  split <;> split <;> omega

theorem select_chars_word : ∀ a ∈ str "select", isWordChar a = true := by decide

/-! ## Transporting a head word-match across a non-word tail -/

theorem wordAt_cons (a x : Char) (w l : List Char) :
    wordAt (a :: w) (x :: l) = (ciCharEq a x && wordAt w l) := by
  simp [wordAt, ciIsPrefix, Bool.and_assoc]

/-- If `w` matches at the head of `X ++ D` (with boundary) and no character
of `w` can match the head of `D`, then `w` also matches at the head of
`X ++ L` for any `L` that is empty or starts with a non-word character. -/
theorem wordAt_swap_tail :
    ∀ (w X D L : List Char),
      (∀ a ∈ w, ∀ c, D.head? = some c → ciCharEq a c = false) →
      (∀ c, L.head? = some c → isWordChar c = false) →
      wordAt w (X ++ D) = true → wordAt w (X ++ L) = true
  | [], [], D, L, _, hL, _ => by
    cases L with
    | nil => rfl
    | cons c cs => simp [wordAt, ciIsPrefix, hL c rfl]
  | [], x :: X', D, L, _, _, h => by
    simp only [List.cons_append, wordAt, ciIsPrefix, List.drop] at h ⊢
    exact h
  | a :: w', [], D, L, hD, _, h => by
    exfalso
    cases D with
    | nil => simp [wordAt, ciIsPrefix] at h
    | cons c ds =>
      rw [List.nil_append, wordAt_cons] at h
      have := hD a (by simp) c rfl
      simp [this] at h
  | a :: w', x :: X', D, L, hD, hL, h => by
    rw [List.cons_append, wordAt_cons] at h ⊢
    rcases Bool.and_eq_true_iff.mp h with ⟨h1, h2⟩
    rw [h1, Bool.true_and]
    exact wordAt_swap_tail w' X' D L (fun a ha => hD a (by simp [ha])) hL h2

/-- The first gate is insensitive to the initial `strip()`:
`re.match(r"^\s*select\b", s.strip())` agrees with the same match on `s`. -/
theorem matchSelectStart_pyStrip (l : List Char) :
    matchSelectStart (pyStrip l) = matchSelectStart l := by
  unfold matchSelectStart
  set v := l.dropWhile isPySpace with hv
  have hstrip : (pyStrip l).dropWhile isPySpace = pyStrip l := pyStrip_dropWhile l
  have hXS : pyStrip l ++ v.rtakeWhile isPySpace = v := pyRstripBy_append_suffix isPySpace v
  have hmis : ∀ a ∈ str "select", ∀ c, (v.rtakeWhile isPySpace).head? = some c →
      ciCharEq a c = false := by
    intro a ha c hc
    have hcm : c ∈ v.rtakeWhile isPySpace := by
      cases hS : v.rtakeWhile isPySpace with
      | nil => rw [hS] at hc; simp at hc
      | cons d ds => rw [hS] at hc; simp at hc; simp [hS, hc]
    exact ciCharEq_word_space (select_chars_word a ha) (Or.inl (List.mem_rtakeWhile_imp hcm))
  rw [hstrip]
  cases hR : wordAt (str "select") v with
  | true =>
    have : wordAt (str "select") (pyStrip l ++ v.rtakeWhile isPySpace) = true := by
      rw [hXS]; exact hR
    have := wordAt_swap_tail (str "select") (pyStrip l) (v.rtakeWhile isPySpace) [] hmis
      (by intro c hc; simp at hc) this
    simpa using this
  | false =>
    by_contra hL
    rw [Bool.not_eq_false] at hL
    have : wordAt (str "select") (pyStrip l ++ []) = true := by simpa using hL
    have := wordAt_swap_tail (str "select") (pyStrip l) [] (v.rtakeWhile isPySpace)
      (by intro a _ c hc; simp at hc)
      (by
        intro c hc
        have hcm : c ∈ v.rtakeWhile isPySpace := by
          cases hS : v.rtakeWhile isPySpace with
          | nil => rw [hS] at hc; simp at hc
          | cons d ds => rw [hS] at hc; simp at hc; simp [hS, hc]
        exact isWordChar_of_pySpace (List.mem_rtakeWhile_imp hcm)) this
    rw [hXS] at this
    rw [this] at hR
    exact Bool.true_eq_false.mp hR

/-! ## Unfolding `sanitize_sql` to a guard cascade on `pyStrip s` -/

theorem sanitize_sql_eq (cfg : Config) (s : List Char) :
    sanitize_sql cfg s =
      (if !matchSelectStart (pyStrip s) then Except.error notSelectMsg
       else if (pyRstripSemi (pyStrip s)).contains ';' then Except.error multiStmtMsg
       else if !schemasOk cfg.allowedSchemas (limitStep cfg.maxRows (pyStrip s)) then
         Except.error (schemaMsg cfg.allowedSchemas)
       else if bannedFound (limitStep cfg.maxRows (pyStrip s)) then Except.error bannedMsg
       else Except.ok (limitStep cfg.maxRows (pyStrip s))) := by
  unfold sanitize_sql
  dsimp only
  rw [pyStrip_idem]

/-! ## Distinctness of the rejection messages -/

theorem notSelectMsg_ne_multi : notSelectMsg ≠ multiStmtMsg := by decide

theorem notSelectMsg_ne_banned : notSelectMsg ≠ bannedMsg := by decide

theorem multiStmtMsg_ne_banned : multiStmtMsg ≠ bannedMsg := by decide

theorem schemaMsg_cons (allow : List (List Char)) :
    schemaMsg allow = 'Q' :: (str "uery must use schemas in " ++ pyStrListRepr (pySorted allow)) :=
  rfl

theorem schemaMsg_ne_notSelect (allow : List (List Char)) : schemaMsg allow ≠ notSelectMsg := by
  intro h
  have := congrArg List.head? h
  rw [schemaMsg_cons] at this
  simp [notSelectMsg, str] at this

theorem schemaMsg_ne_multi (allow : List (List Char)) : schemaMsg allow ≠ multiStmtMsg := by
  intro h
  have := congrArg List.head? h
  rw [schemaMsg_cons] at this
  simp [multiStmtMsg, str] at this

theorem schemaMsg_ne_banned (allow : List (List Char)) : schemaMsg allow ≠ bannedMsg := by
  intro h
  have := congrArg List.head? h
  rw [schemaMsg_cons] at this
  simp [bannedMsg, str] at this

/-! ## Claim C1 -/

/-- C1: a candidate is rejected with the `NotSelect` error exactly when it
does not begin (after arbitrary leading whitespace, case-insensitively,
with a word boundary) with the token `SELECT`; in particular, when it does
so begin, the first gate passes. -/
theorem C1_select_gate (cfg : Config) (s : List Char) :
    sanitize_sql cfg s = Except.error notSelectMsg ↔ matchSelectStart s = false := by
  rw [sanitize_sql_eq, matchSelectStart_pyStrip]
  cases hm : matchSelectStart s with
  | false =>
    simp
  | true =>
    simp only [Bool.not_true, Bool.false_eq_true, if_false]
    constructor
    · intro h
      exfalso
      split at h
      · exact notSelectMsg_ne_multi ((Except.error.inj h).symm)
      · split at h
        · exact schemaMsg_ne_notSelect _ (Except.error.inj h)
        · split at h
          · exact notSelectMsg_ne_banned ((Except.error.inj h).symm)
          · exact Except.noConfusion h
    · intro h
      exact absurd h (by simp)

/-- Witness for C1 at a concrete rejected input. -/
theorem C1_select_gate_witness :
    sanitize_sql cfg100 (str "show tables") = Except.error notSelectMsg :=
  (C1_select_gate cfg100 (str "show tables")).mpr (by decide)

/-! ## Claim C3 -/

/-- C3 counterexample: `"SELECT 1;;"` still contains a terminator after
stripping at most ONE trailing terminator, yet `sanitize_sql` accepts it
(the source strips every trailing `;`), contradicting the claim that every
such candidate is rejected with `MultipleStatements`. -/
theorem C3_counterexample :
    (stripOneTrailingSemi (str "SELECT 1;;")).contains ';' = true ∧
      sanitize_sql cfg100 (str "SELECT 1;;") = Except.ok (str "SELECT 1 LIMIT 100") :=
  ⟨by decide, rfl⟩

/-- C3 (amended): for every candidate that passes the `SELECT` gate and
still contains a terminator after stripping ALL trailing terminators,
`sanitize_sql` rejects with `MultipleStatements` — in particular before the
banned-keyword scan, whose outcome the conclusion ignores. -/
theorem C3_amended_multi (cfg : Config) (s : List Char)
    (h1 : matchSelectStart s = true)
    (h2 : (pyRstripSemi (pyStrip s)).contains ';' = true) :
    sanitize_sql cfg s = Except.error multiStmtMsg := by
  rw [sanitize_sql_eq, matchSelectStart_pyStrip, h1]
  have h2' : (';') ∈ pyRstripSemi (pyStrip s) := by simpa using h2
  simp [h2']

/-- Witness for the amended C3: the spec's own end-to-end scenario
`"SELECT 1; DROP TABLE x"` is rejected with `MultipleStatements` even
though it contains the banned keyword `DROP`. -/
theorem C3_amended_multi_witness :
    sanitize_sql cfg100 (str "SELECT 1; DROP TABLE x") = Except.error multiStmtMsg :=
  C3_amended_multi cfg100 (str "SELECT 1; DROP TABLE x") (by decide) (by decide)

/-! ## Claim C5 -/

/-- C5: when a candidate already contains a whole-word `limit`, the
limit-enforcement step leaves it unchanged; when it does not, the step
appends `" LIMIT {MAX_ROWS}"` after removing trailing whitespace and
terminators; and the spec's end-to-end scenario validates exactly as
stated. -/
theorem C5_limit_append (cfg : Config) (s : List Char) :
    (hasLimitWord s = true → limitStep cfg.maxRows s = s) ∧
    (hasLimitWord s = false →
      limitStep cfg.maxRows s =
        pyRstripSemi (pyRstripWs s) ++ str " LIMIT " ++ natChars cfg.maxRows) ∧
    sanitize_sql cfg100 (str "SELECT * FROM nyc_taxi.yellow_curated") =
      Except.ok (str "SELECT * FROM nyc_taxi.yellow_curated LIMIT 100") := by
  refine ⟨fun h => ?_, fun h => ?_, rfl⟩
  · simp [limitStep, hasLimitWord] at h ⊢
    simp [h]
  · simp [limitStep, hasLimitWord] at h ⊢
    simp [h]

/-- Witness for C5: both branches of the limit step at concrete inputs. -/
theorem C5_limit_append_witness :
    limitStep cfg100.maxRows (str "select 1 limit 5") = str "select 1 limit 5" ∧
      limitStep cfg100.maxRows (str "SELECT 2") = str "SELECT 2 LIMIT 100" := by
  constructor
  · exact (C5_limit_append cfg100 (str "select 1 limit 5")).1 (by decide)
  · have h := (C5_limit_append cfg100 (str "SELECT 2")).2.1 (by decide)
    rw [h]
    rfl

/-! ## Structure of successful outputs (used for claims C6 and C10) -/

theorem semi_eq_of_isSemi {c : Char} (h : isSemi c = true) : c = ';' := by
  simp only [isSemi, decide_eq_true_eq] at h
  have h2 : c.val.toNat = (59 : Nat) := h
  have : c.val = (';' : Char).val := by
    apply UInt32.eq_of_val_eq
    apply Fin.ext
    simpa using h2
  exact Char.ext this

theorem word_not_space {c : Char} (h : isWordChar c = true) :
    isPySpace c = false ∧ isSemi c = false := by
  simp only [isWordChar, Bool.or_eq_true, Bool.and_eq_true, decide_eq_true_eq] at h
  simp only [isPySpace, isSemi, Bool.or_eq_false_iff, decide_eq_false_iff_not]
  omega

theorem isWordChar_of_ciCharEq {a c : Char} (h : ciCharEq a c = true)
    (ha : isWordChar a = true) : isWordChar c = true := by
  simp only [ciCharEq, beq_iff_eq] at h
  simp only [isWordChar, Bool.or_eq_true, Bool.and_eq_true, decide_eq_true_eq] at ha ⊢
  simp only [lowerN] at h
  split at h <;> split at h <;> omega

theorem semi_not_space {c : Char} (h : isSemi c = true) : isPySpace c = false := by
  simp only [isSemi, decide_eq_true_eq] at h
  simp only [isPySpace, Bool.or_eq_false_iff, decide_eq_false_iff_not]
  omega

theorem mem_of_pyRstripBy {p : Char → Bool} {l : List Char} {c : Char}
    (h : c ∈ pyRstripBy p l) : c ∈ l := by
  rw [pyRstripBy_eq_rdropWhile] at h
  exact (List.rdropWhile_prefix p l).subset h

/-- A nonempty right-strip of a list headed by a non-`p` character keeps
that head. -/
theorem pyRstripBy_cons_head {p : Char → Bool} {c : Char} (t : List Char) (hc : p c = false) :
    ∃ t', pyRstripBy p (c :: t) = c :: t' := by
  cases hX : pyRstripBy p (c :: t) with
  | nil =>
    exfalso
    rw [pyRstripBy_eq_rdropWhile] at hX
    have := List.rdropWhile_eq_nil_iff.mp hX c (by simp)
    rw [hc] at this
    exact Bool.noConfusion this
  | cons d t' =>
    obtain ⟨ss, hss⟩ := List.rdropWhile_prefix p (c :: t)
    rw [← pyRstripBy_eq_rdropWhile, hX] at hss
    rw [List.cons_append] at hss
    injection hss with h1 _
    exact ⟨t', by rw [h1]⟩

/-- Digits produced by `natChars` lie in the ASCII digit range. -/
theorem natCharsAux_digit : ∀ (fuel n : Nat) (c : Char), c ∈ natCharsAux fuel n →
    48 ≤ c.toNat ∧ c.toNat ≤ 57 := by
  intro fuel
  induction fuel with
  | zero => intro n c h; simp [natCharsAux] at h
  | succ f ih =>
    intro n c h
    rw [natCharsAux] at h
    split at h
    · next hn =>
      simp only [List.mem_singleton] at h
      subst h
      interval_cases n <;> decide
    · next hn =>
      rcases List.mem_append.mp h with h | h
      · exact ih _ _ h
      · simp only [List.mem_singleton] at h
        subst h
        have : n % 10 < 10 := Nat.mod_lt _ (by omega)
        interval_cases hm : n % 10 <;> decide

theorem natChars_digit {n : Nat} {c : Char} (h : c ∈ natChars n) :
    48 ≤ c.toNat ∧ c.toNat ≤ 57 :=
  natCharsAux_digit (n + 1) n c h

theorem digit_not_space_semi {c : Char} (h : 48 ≤ c.toNat ∧ c.toNat ≤ 57) :
    isPySpace c = false ∧ isSemi c = false := by
  simp only [isPySpace, isSemi, Bool.or_eq_false_iff, decide_eq_false_iff_not]
  omega

theorem natChars_ne_nil (n : Nat) : natChars n ≠ [] := by
  rw [natChars, natCharsAux]
  split <;> simp

/-- A right-strip is the identity when the last element does not satisfy
the stripped class. -/
theorem pyRstripBy_eq_self_of_getLast {p : Char → Bool} {l : List Char} {c : Char}
    (hgl : l.getLast? = some c) (hc : p c = false) : pyRstripBy p l = l := by
  rw [pyRstripBy_eq_rdropWhile]
  apply List.rdropWhile_eq_self_iff.mpr
  intro hl
  have h2 : l.getLast? = some (l.getLast hl) := List.getLast?_eq_getLast_of_ne_nil hl
  rw [hgl] at h2
  have h3 := Option.some.inj h2
  rw [← h3, hc]
  simp

/-- The tail appended by the limit step contains no terminator. -/
theorem limit_suffix_no_semi (m : Nat) : (';') ∉ str " LIMIT " ++ natChars m := by
  intro hc
  rcases List.mem_append.mp hc with hc | hc
  · exact absurd hc (by decide)
  · have hd := natChars_digit hc
    have h59 : (';' : Char).toNat = 59 := rfl
    omega

/-- Right-stripping whitespace then terminators preserves the absence of an
inner terminator established by the multi-statement gate. -/
theorem pyRstripSemi_rstripWs_semifree {u : List Char} (h : (';') ∉ pyRstripSemi u) :
    (';') ∉ pyRstripSemi (pyRstripWs u) := by
  have hdec := pyRstripBy_append_suffix isSemi u
  cases hS : u.rtakeWhile isSemi with
  | nil =>
    rw [hS, List.append_nil] at hdec
    have hu : (';') ∉ u := by
      rw [← hdec]
      exact h
    intro hc
    exact hu (mem_of_pyRstripBy (mem_of_pyRstripBy hc))
  | cons d ds =>
    have hSne : u.rtakeWhile isSemi ≠ [] := by
      rw [hS]
      exact List.cons_ne_nil d ds
    have hgl : u.getLast? = some ((u.rtakeWhile isSemi).getLast hSne) := by
      conv_lhs => rw [← hdec]
      rw [List.getLast?_append_of_ne_nil _ hSne]
      exact List.getLast?_eq_getLast_of_ne_nil hSne
    have hsem : isSemi ((u.rtakeWhile isSemi).getLast hSne) = true :=
      List.mem_rtakeWhile_imp (List.getLast_mem hSne)
    have hws : pyRstripWs u = u :=
      pyRstripBy_eq_self_of_getLast hgl (semi_not_space hsem)
    rw [hws]
    exact h

/-- A select-gated stripped string starts with a word character. -/
theorem head_of_matchSelect {u : List Char} (hdw : u.dropWhile isPySpace = u)
    (hsel : matchSelectStart u = true) :
    ∃ c t, u = c :: t ∧ isWordChar c = true := by
  rw [matchSelectStart, hdw] at hsel
  cases u with
  | nil => exact absurd hsel (by decide)
  | cons c t =>
    refine ⟨c, t, rfl, ?_⟩
    have hcc : ciCharEq 's' c = true := by
      rw [show str "select" = 's' :: str "elect" from rfl, wordAt_cons] at hsel
      exact (Bool.and_eq_true_iff.mp hsel).1
    exact isWordChar_of_ciCharEq hcc (by decide)

/-- Inverting a successful run of `sanitize_sql`: all gates passed and the
output is the limit-adjusted stripped input. -/
theorem sanitize_ok_inv (cfg : Config) (s out : List Char)
    (h : sanitize_sql cfg s = Except.ok out) :
    out = limitStep cfg.maxRows (pyStrip s) ∧
    matchSelectStart (pyStrip s) = true ∧
    (';') ∉ pyRstripSemi (pyStrip s) ∧
    schemasOk cfg.allowedSchemas out = true ∧
    bannedFound out = false := by
  rw [sanitize_sql_eq] at h
  split at h
  · exact Except.noConfusion h
  next hg1 =>
    split at h
    · exact Except.noConfusion h
    next hg2 =>
      split at h
      · exact Except.noConfusion h
      next hg3 =>
        split at h
        · exact Except.noConfusion h
        next hg4 =>
          have hout : out = limitStep cfg.maxRows (pyStrip s) := (Except.ok.inj h).symm
          refine ⟨hout, by simpa using hg1, by simpa using hg2, ?_, ?_⟩
          · rw [hout]
            simpa using hg3
          · rw [hout]
            simpa using hg4

/-- A whole-word occurrence in the right part survives prepending. -/
theorem hasWordFrom_append_of_right (w b : List Char)
    (hb : ∀ q : Bool, hasWordFrom w q b = true) :
    ∀ (a : List Char) (q : Bool), hasWordFrom w q (a ++ b) = true := by
  intro a
  induction a with
  | nil => exact hb
  | cons c cs ih =>
    intro q
    rw [List.cons_append]
    show (!q && wordAt w (c :: (cs ++ b)) || hasWordFrom w (isWordChar c) (cs ++ b)) = true
    rw [ih (isWordChar c)]
    simp

/-- The appended `" LIMIT {n}"` tail always contains `limit` as a whole
word, whatever precedes it. -/
theorem hasWordFrom_limit (d : List Char) (q : Bool) :
    hasWordFrom (str "limit") q (str " LIMIT " ++ d) = true := by
  cases q <;> rfl

/-- Successful outputs are structurally normalized: stripped, select-gated,
terminator-free up to a trailing run, limit-worded, and pass both scans. -/
theorem sanitize_ok_output (cfg : Config) (s out : List Char)
    (h : sanitize_sql cfg s = Except.ok out) :
    pyStrip out = out ∧
    matchSelectStart out = true ∧
    (';') ∉ pyRstripSemi out ∧
    hasLimitWord out = true ∧
    schemasOk cfg.allowedSchemas out = true ∧
    bannedFound out = false := by
  obtain ⟨hout, hsel, hsemi, hsch, hban⟩ := sanitize_ok_inv cfg s out h
  have hdw : (pyStrip s).dropWhile isPySpace = pyStrip s := pyStrip_dropWhile s
  by_cases hlim : hasLimitWord (pyStrip s)
  · have houtu : out = pyStrip s := by
      rw [hout]
      simp [limitStep, hlim]
    refine ⟨?_, ?_, ?_, ?_, hsch, hban⟩
    · rw [houtu]
      exact pyStrip_idem s
    · rw [houtu]
      rw [matchSelectStart_pyStrip]
      rw [← matchSelectStart_pyStrip]
      exact hsel
    · rw [houtu]
      exact hsemi
    · rw [houtu]
      exact hlim
  · have hlim' : hasLimitWord (pyStrip s) = false := by
      simpa using hlim
    have houts : out = pyRstripSemi (pyRstripWs (pyStrip s)) ++
        (str " LIMIT " ++ natChars cfg.maxRows) := by
      rw [hout]
      simp [limitStep, hlim', List.append_assoc]
    set u := pyStrip s with hu
    obtain ⟨c0, t0, hu0, hc0w⟩ := head_of_matchSelect hdw hsel
    have hc0 := word_not_space hc0w
    obtain ⟨t1, ht1⟩ := pyRstripBy_cons_head t0 hc0.1
    have hX1 : pyRstripWs u = c0 :: t1 := by
      rw [hu0]
      exact ht1
    obtain ⟨t2, ht2⟩ := pyRstripBy_cons_head t1 hc0.2
    have hX2 : pyRstripSemi (pyRstripWs u) = c0 :: t2 := by
      rw [hX1]
      exact ht2
    have hdecWs : pyRstripWs u ++ u.rtakeWhile isPySpace = u :=
      pyRstripBy_append_suffix isPySpace u
    have hdecSemi : pyRstripSemi (pyRstripWs u) ++ (pyRstripWs u).rtakeWhile isSemi =
        pyRstripWs u :=
      pyRstripBy_append_suffix isSemi (pyRstripWs u)
    have hXD : pyRstripSemi (pyRstripWs u) ++
        ((pyRstripWs u).rtakeWhile isSemi ++ u.rtakeWhile isPySpace) = u := by
      rw [← List.append_assoc, hdecSemi, hdecWs]
    -- the output is terminator-free
    have hOutSemi : (';') ∉ out := by
      rw [houts]
      intro hc
      rcases List.mem_append.mp hc with hc | hc
      · exact pyRstripSemi_rstripWs_semifree hsemi hc
      · exact limit_suffix_no_semi cfg.maxRows hc
    -- head and last structure of the output
    have houtc : out = c0 :: (t2 ++ (str " LIMIT " ++ natChars cfg.maxRows)) := by
      rw [houts, hX2]
      rfl
    have hlastd : ∃ c, out.getLast? = some c ∧ 48 ≤ c.toNat ∧ c.toNat ≤ 57 := by
      have hne : natChars cfg.maxRows ≠ [] := natChars_ne_nil cfg.maxRows
      refine ⟨(natChars cfg.maxRows).getLast hne, ?_, ?_⟩
      · rw [houts, List.getLast?_append_of_ne_nil _ (by simp [hne]),
          List.getLast?_append_of_ne_nil _ hne]
        exact List.getLast?_eq_getLast_of_ne_nil hne
      · exact natChars_digit (List.getLast_mem hne)
    have hOutStrip : pyStrip out = out := by
      obtain ⟨cl, hcl, hcld⟩ := hlastd
      have hdwout : out.dropWhile isPySpace = out := by
        rw [houtc]
        exact dropWhile_cons_of_head_false _ hc0.1
      show pyRstripBy isPySpace (out.dropWhile isPySpace) = out
      rw [hdwout]
      exact pyRstripBy_eq_self_of_getLast hcl (digit_not_space_semi hcld).1
    refine ⟨hOutStrip, ?_, ?_, ?_, hsch, hban⟩
    · -- the select gate on the output
      have hselu : wordAt (str "select") u = true := by
        rw [matchSelectStart, hdw] at hsel
        exact hsel
      have hswap := wordAt_swap_tail (str "select") (pyRstripSemi (pyRstripWs u))
        ((pyRstripWs u).rtakeWhile isSemi ++ u.rtakeWhile isPySpace)
        (str " LIMIT " ++ natChars cfg.maxRows)
        (by
          intro a ha c hc
          have hcm := List.mem_of_mem_head? hc
          rcases List.mem_append.mp hcm with hcm | hcm
          · exact ciCharEq_word_space (select_chars_word a ha)
              (Or.inr (List.mem_rtakeWhile_imp hcm))
          · exact ciCharEq_word_space (select_chars_word a ha)
              (Or.inl (List.mem_rtakeWhile_imp hcm)))
        (by
          intro c hc
          have : c = ' ' := by
            have : (str " LIMIT " ++ natChars cfg.maxRows).head? = some ' ' := rfl
            rw [this] at hc
            exact (Option.some.inj hc).symm
          rw [this]
          decide)
        (by
          rw [hXD]
          exact hselu)
      rw [matchSelectStart]
      have hdwout : out.dropWhile isPySpace = out := by
        rw [houtc]
        exact dropWhile_cons_of_head_false _ hc0.1
      rw [hdwout, houts]
      exact hswap
    · intro hc
      exact hOutSemi (mem_of_pyRstripBy hc)
    · rw [houts, hasLimitWord, hasWord]
      exact hasWordFrom_append_of_right _ _ (hasWordFrom_limit (natChars cfg.maxRows)) _ false

/-! ## Claim C2 -/

/-- C2 counterexample: `"drop table x"` contains the banned keyword `drop`
as a whole word, yet `sanitize_sql` rejects it with the `NotSelect` error —
not a `BannedKeyword` error — and the message does not name the keyword. -/
theorem C2_counterexample :
    hasWord (str "drop") (str "drop table x") = true ∧
      sanitize_sql cfg100 (str "drop table x") = Except.error notSelectMsg ∧
      notSelectMsg ≠ bannedMsg ∧
      strContainsSub (str "drop") notSelectMsg = false :=
  ⟨by decide, rfl, by decide, by decide⟩

/-- C2 (amended): for every candidate that passes the earlier gates
(`SELECT` start, no inner terminator, allowed schemas) and on which the
banned-keyword scan finds a whole-word match — anywhere, including inside a
nested subquery — `sanitize_sql` rejects with the `BannedKeyword` error,
whose message is a fixed string that does not name the offending keyword. -/
theorem C2_amended_banned (cfg : Config) (s : List Char)
    (h1 : matchSelectStart s = true)
    (h2 : (pyRstripSemi (pyStrip s)).contains ';' = false)
    (h3 : schemasOk cfg.allowedSchemas (limitStep cfg.maxRows (pyStrip s)) = true)
    (h4 : bannedFound (limitStep cfg.maxRows (pyStrip s)) = true) :
    sanitize_sql cfg s = Except.error bannedMsg := by
  rw [sanitize_sql_eq, matchSelectStart_pyStrip, h1]
  have h2' : (';') ∉ pyRstripSemi (pyStrip s) := by simpa using h2
  simp [h2', h3, h4]

/-- Witness for the amended C2: a banned keyword inside a nested subquery
of an otherwise clean SELECT. -/
theorem C2_amended_banned_witness :
    sanitize_sql cfg100 (str "SELECT a FROM (SELECT * FROM nyc_taxi.t WHERE drop = 1) LIMIT 5") =
      Except.error bannedMsg :=
  C2_amended_banned cfg100
    (str "SELECT a FROM (SELECT * FROM nyc_taxi.t WHERE drop = 1) LIMIT 5")
    (by decide) (by decide) (by decide) (by decide)

/-! ## Claim C4 -/

/-- C4 counterexample: the spec's own scenario
`"select * from other_schema.t limit 10"` is rejected with the
`SchemaNotAllowed` error, but that error names the allow-list, not the
offending schema `other_schema`, contradicting "naming x". -/
theorem C4_counterexample :
    sanitize_sql cfg100 (str "select * from other_schema.t limit 10") =
        Except.error (schemaMsg cfg100.allowedSchemas) ∧
      strContainsSub (str "other_schema") (schemaMsg cfg100.allowedSchemas) = false :=
  ⟨rfl, by decide⟩

/-- C4 (amended): for every candidate that passes the `SELECT` and
single-statement gates, if the `FROM`/`JOIN` table scan finds a qualified
token whose schema segment is not allow-listed then `sanitize_sql` rejects
with the `SchemaNotAllowed` error (whose message names the sorted
allow-list, not the offending schema); if every captured qualified token is
allow-listed, validation proceeds past this step and the schema error
cannot be the outcome. -/
theorem C4_amended_schema (cfg : Config) (s : List Char)
    (h1 : matchSelectStart s = true)
    (h2 : (pyRstripSemi (pyStrip s)).contains ';' = false) :
    (schemasOk cfg.allowedSchemas (limitStep cfg.maxRows (pyStrip s)) = false →
        sanitize_sql cfg s = Except.error (schemaMsg cfg.allowedSchemas)) ∧
    (schemasOk cfg.allowedSchemas (limitStep cfg.maxRows (pyStrip s)) = true →
        sanitize_sql cfg s ≠ Except.error (schemaMsg cfg.allowedSchemas)) := by
  rw [sanitize_sql_eq, matchSelectStart_pyStrip, h1]
  have h2' : (';') ∉ pyRstripSemi (pyStrip s) := by simpa using h2
  constructor
  · intro h3
    simp [h2', h3]
  · intro h3
    simp [h2', h3]
    split
    · exact fun hc => schemaMsg_ne_banned _ (Except.error.inj hc.symm)
    · exact fun hc => Except.noConfusion hc

/-- Witness for the amended C4: both directions at concrete inputs. -/
theorem C4_amended_schema_witness :
    sanitize_sql cfg100 (str "select x from bad_schema.t limit 1") =
        Except.error (schemaMsg cfg100.allowedSchemas) ∧
      sanitize_sql cfg100 (str "select x from nyc_taxi.t limit 1") ≠
        Except.error (schemaMsg cfg100.allowedSchemas) :=
  ⟨(C4_amended_schema cfg100 (str "select x from bad_schema.t limit 1")
      (by decide) (by decide)).1 (by decide),
    (C4_amended_schema cfg100 (str "select x from nyc_taxi.t limit 1")
      (by decide) (by decide)).2 (by decide)⟩

/-! ## Claim C6 -/

/-- C6 counterexample: `"SELECT 1 LIMIT 5;;"` validates unchanged, so the
output contains two statement terminators — not at most one. -/
theorem C6_counterexample :
    sanitize_sql cfg100 (str "SELECT 1 LIMIT 5;;") = Except.ok (str "SELECT 1 LIMIT 5;;") ∧
      (str "SELECT 1 LIMIT 5;;").count ';' = 2 :=
  ⟨rfl, by decide⟩

/-- C6 (amended): in every successful output all statement terminators, if
any, form a trailing run: stripping trailing terminators leaves none, and
when a terminator occurs at all the final character of the output is a
terminator.  (The output is stripped, so the final character is also the
final non-whitespace character; "at most one" does not hold.) -/
theorem C6_amended_trailing (cfg : Config) (s out : List Char)
    (h : sanitize_sql cfg s = Except.ok out) :
    (pyRstripSemi out).contains ';' = false ∧
      (out.contains ';' = true → out.getLast? = some ';') := by
  obtain ⟨-, -, hsemi, -, -, -⟩ := sanitize_ok_output cfg s out h
  constructor
  · simpa using hsemi
  · intro hc
    have hc' : (';') ∈ out := by simpa using hc
    have hdec : pyRstripSemi out ++ out.rtakeWhile isSemi = out :=
      pyRstripBy_append_suffix isSemi out
    rw [← hdec] at hc'
    have hcS : (';') ∈ out.rtakeWhile isSemi := by
      rcases List.mem_append.mp hc' with h1 | h1
      · exact absurd h1 hsemi
      · exact h1
    have hSne : out.rtakeWhile isSemi ≠ [] := List.ne_nil_of_mem hcS
    have hgl : out.getLast? = some ((out.rtakeWhile isSemi).getLast hSne) := by
      conv_lhs => rw [← hdec]
      rw [List.getLast?_append_of_ne_nil _ hSne]
      exact List.getLast?_eq_getLast_of_ne_nil hSne
    have hsem := List.mem_rtakeWhile_imp (List.getLast_mem hSne)
    rw [hgl, semi_eq_of_isSemi hsem]

/-- Witness for the amended C6 on a successful run whose output keeps a
trailing terminator. -/
theorem C6_amended_trailing_witness :
    (pyRstripSemi (str "SELECT 3 LIMIT 7;")).contains ';' = false ∧
      ((str "SELECT 3 LIMIT 7;").contains ';' = true →
        (str "SELECT 3 LIMIT 7;").getLast? = some ';') :=
  C6_amended_trailing cfg100 (str "SELECT 3 LIMIT 7;") (str "SELECT 3 LIMIT 7;") rfl

/-! ## Claim C10 -/

/-- C10: `sanitize_sql` is idempotent on its successes — a validated output
passes every gate unchanged when validated again. -/
theorem C10_idempotent (cfg : Config) (s out : List Char)
    (h : sanitize_sql cfg s = Except.ok out) :
    sanitize_sql cfg out = Except.ok out := by
  obtain ⟨hstrip, hsel, hsemi, hlim, hsch, hban⟩ := sanitize_ok_output cfg s out h
  rw [sanitize_sql_eq, hstrip]
  have hls : limitStep cfg.maxRows out = out := by
    simp [limitStep, hlim]
  rw [hls]
  simp [hsel, hsemi, hsch, hban]

/-- Witness for C10 at a concrete success. -/
theorem C10_idempotent_witness :
    sanitize_sql cfg100 (str "SELECT 1 LIMIT 100") = Except.ok (str "SELECT 1 LIMIT 100") :=
  C10_idempotent cfg100 (str "SELECT 1") (str "SELECT 1 LIMIT 100") rfl

/-! ## Claim C7: the retry loop -/

theorem invokeAux_ok {α : Type} (out : Nat → BAttempt α) (jit : Nat → ℚ)
    (rem attempt : Nat) (v : α) (hoa : out attempt = .ok v) :
    invokeAux out jit rem attempt = (Except.ok v, []) := by
  cases rem <;> (simp only [invokeAux]; rw [hoa])

theorem invokeAux_err {α : Type} (out : Nat → BAttempt α) (jit : Nat → ℚ)
    (rem attempt : Nat) (c : List Char) (hoa : out attempt = .clientErr c)
    (hnt : isThrottleCode c = false) :
    invokeAux out jit rem attempt = (Except.error c, []) := by
  cases rem with
  | zero =>
    simp only [invokeAux]
    rw [hoa]
  | succ r =>
    simp only [invokeAux]
    rw [hoa]
    simp [hnt]

theorem invokeAux_zero {α : Type} (out : Nat → BAttempt α) (jit : Nat → ℚ)
    (attempt : Nat) (c : List Char) (hoa : out attempt = .clientErr c) :
    invokeAux out jit 0 attempt = (Except.error c, []) := by
  simp only [invokeAux]
  rw [hoa]

/-- Peeling the first element off a shifted `range`-map. -/
theorem range_succ_shift (f : Nat → ℚ) (attempt k : Nat) :
    (List.range (k + 1)).map (fun i => f (attempt + i)) =
      f attempt :: (List.range k).map (fun i => f (attempt + 1 + i)) := by
  rw [List.range_succ_eq_map, List.map_cons, List.map_map]
  refine congrArg₂ _ (by rw [Nat.add_zero]) ?_
  apply List.map_congr_left
  intro i _
  simp only [Function.comp]
  congr 1
  omega

/-- `k` consecutive throttles unroll to `k` sleeps followed by the rest of
the loop. -/
theorem invokeAux_throttles {α : Type} (out : Nat → BAttempt α) (jit : Nat → ℚ) :
    ∀ (k rem attempt : Nat), k ≤ rem →
      (∀ i, i < k → (out (attempt + i)).isThrottle = true) →
      invokeAux out jit rem attempt =
        ((invokeAux out jit (rem - k) (attempt + k)).1,
          (List.range k).map (fun i => backoffMs jit (attempt + i)) ++
            (invokeAux out jit (rem - k) (attempt + k)).2) := by
  intro k
  induction k with
  | zero =>
    intro rem attempt _ _
    simp
  | succ k ih =>
    intro rem attempt hk hth
    have h0 : (out attempt).isThrottle = true := by
      have := hth 0 (by omega)
      simpa using this
    obtain ⟨code, hcode, hthr⟩ : ∃ c, out attempt = .clientErr c ∧ isThrottleCode c = true := by
      cases hoa : out attempt with
      | ok v =>
        rw [hoa] at h0
        exact absurd h0 (by simp [BAttempt.isThrottle])
      | clientErr c =>
        rw [hoa] at h0
        exact ⟨c, rfl, h0⟩
    cases rem with
    | zero => omega
    | succ r =>
      have hstep : invokeAux out jit (r + 1) attempt =
          ((invokeAux out jit r (attempt + 1)).1,
            backoffMs jit attempt :: (invokeAux out jit r (attempt + 1)).2) := by
        simp only [invokeAux]
        rw [hcode]
        simp [hthr]
      rw [hstep, ih r (attempt + 1) (by omega)
        (by
          intro i hi
          have := hth (i + 1) (by omega)
          simpa [Nat.add_assoc, Nat.add_comm 1 i] using this)]
      have hrem : r - k = r + 1 - (k + 1) := by omega
      have hatt : attempt + 1 + k = attempt + (k + 1) := by omega
      rw [hrem, hatt]
      simp only [Prod.mk.injEq, true_and]
      rw [range_succ_shift (backoffMs jit) attempt k]
      simp

/-- C7: `invoke_bedrock_with_retry` (1) returns the first success after one
sleep per preceding throttle when a success arrives within the attempt cap;
(2) propagates a non-throttling error immediately, with no further retry;
(3) surfaces the throttling error after exactly the cap number of attempts
(cap − 1 sleeps) when every attempt throttles; and (4) every sleep equals
`min(capMs, baseMs·2^i) + jitter(i)` with base 500 ms and cap 8000 ms, so
it lies within the jitter bound of the capped exponential schedule. -/
theorem C7_retry_policy {α : Type} (maxAttempts : Nat) (out : Nat → BAttempt α)
    (jit : Nat → ℚ) :
    (∀ (N : Nat) (v : α), 1 ≤ N → N ≤ maxAttempts →
      (∀ i, i < N - 1 → (out i).isThrottle = true) → out (N - 1) = .ok v →
      invoke_bedrock_with_retry maxAttempts out jit =
        (Except.ok v, (List.range (N - 1)).map (backoffMs jit))) ∧
    (∀ (k : Nat) (c : List Char), k ≤ maxAttempts - 1 →
      (∀ i, i < k → (out i).isThrottle = true) →
      out k = .clientErr c → isThrottleCode c = false →
      invoke_bedrock_with_retry maxAttempts out jit =
        (Except.error c, (List.range k).map (backoffMs jit))) ∧
    (1 ≤ maxAttempts →
      (∀ i, i < maxAttempts → (out i).isThrottle = true) →
      ∃ c, out (maxAttempts - 1) = BAttempt.clientErr c ∧
        invoke_bedrock_with_retry maxAttempts out jit =
          (Except.error c, (List.range (maxAttempts - 1)).map (backoffMs jit))) ∧
    (∀ i : Nat, 0 ≤ jit i → jit i ≤ 300 →
      min 8000 ((2 ^ i : ℚ) * 500) ≤ backoffMs jit i ∧
        backoffMs jit i ≤ min 8000 ((2 ^ i : ℚ) * 500) + 300) := by
  refine ⟨?_, ?_, ?_, ?_⟩
  · intro N v hN1 hNmax hth hok
    unfold invoke_bedrock_with_retry
    rw [invokeAux_throttles out jit (N - 1) (maxAttempts - 1) 0 (by omega)
      (by intro i hi; simpa using hth i hi)]
    rw [invokeAux_ok out jit _ _ v (by simpa using hok)]
    simp
  · intro k c hk hth herr hnt
    unfold invoke_bedrock_with_retry
    rw [invokeAux_throttles out jit k (maxAttempts - 1) 0 hk
      (by intro i hi; simpa using hth i hi)]
    rw [invokeAux_err out jit _ _ c (by simpa using herr) hnt]
    simp
  · intro hmax hth
    have h0 : (out (maxAttempts - 1)).isThrottle = true := hth _ (by omega)
    obtain ⟨code, hcode, hthr⟩ : ∃ c, out (maxAttempts - 1) = .clientErr c ∧
        isThrottleCode c = true := by
      cases hoa : out (maxAttempts - 1) with
      | ok v =>
        rw [hoa] at h0
        exact absurd h0 (by simp [BAttempt.isThrottle])
      | clientErr c =>
        rw [hoa] at h0
        exact ⟨c, rfl, h0⟩
    refine ⟨code, hcode, ?_⟩
    unfold invoke_bedrock_with_retry
    rw [invokeAux_throttles out jit (maxAttempts - 1) (maxAttempts - 1) 0 (by omega)
      (by intro i hi; simpa using hth i (by omega))]
    rw [Nat.sub_self]
    rw [invokeAux_zero out jit _ code (by simpa using hcode)]
    simp
  · intro i h0 h300
    unfold backoffMs
    constructor <;> linarith

/-- Witness for C7: two throttles then a success under the default cap of 6
produce the success after sleeps of 500 + 0 and 1000 + 0 milliseconds. -/
theorem C7_retry_policy_witness :
    invoke_bedrock_with_retry 6 throttleSeq (fun _ => 0) =
      (Except.ok 7, [500, 1000]) := by
  have h := (C7_retry_policy 6 throttleSeq (fun _ => 0)).1 3 7 (by omega) (by omega)
    (by
      intro i hi
      interval_cases i <;> rfl)
    rfl
  rw [h]
  norm_num [backoffMs, List.range_succ]

/-! ## Claim C8: pagination of `run_athena` -/

theorem appendRows_le (m : Nat) :
    ∀ (rs acc : List (List Cell)), acc.length < m →
      (appendRows m acc rs).length ≤ m := by
  intro rs
  induction rs with
  | nil =>
    intro acc h
    exact Nat.le_of_lt h
  | cons r rs ih =>
    intro acc h
    rw [appendRows]
    split
    · next hc =>
      simp only [List.length_append, List.length_singleton]
      omega
    · next hc =>
      exact ih _ (by simp only [List.length_append, List.length_singleton]; omega)

theorem appendRows_extends (m : Nat) :
    ∀ (rs acc : List (List Cell)), ∃ ext, appendRows m acc rs = acc ++ ext := by
  intro rs
  induction rs with
  | nil =>
    intro acc
    exact ⟨[], (List.append_nil acc).symm⟩
  | cons r rs ih =>
    intro acc
    rw [appendRows]
    split
    · exact ⟨[r], rfl⟩
    · obtain ⟨ext, hext⟩ := ih (acc ++ [r])
      exact ⟨[r] ++ ext, by rw [hext, List.append_assoc]⟩

theorem pageLoop_le (m : Nat) :
    ∀ (ps : List AthenaPage) (acc : List (List Cell)),
      (pageLoop m acc ps).length ≤ max m acc.length := by
  intro ps
  induction ps with
  | nil =>
    intro acc
    rw [pageLoop]
    exact Nat.le_max_right m acc.length
  | cons p ps ih =>
    intro acc
    rw [pageLoop]
    split
    · next hlt =>
      have h1 := appendRows_le m p.rows acc hlt
      have h2 := ih (appendRows m acc p.rows)
      have h3 : max m (appendRows m acc p.rows).length = m := Nat.max_eq_left h1
      rw [h3] at h2
      exact Nat.le_trans h2 (Nat.le_max_left m acc.length)
    · exact Nat.le_max_right m acc.length

theorem pageLoop_extends (m : Nat) :
    ∀ (ps : List AthenaPage) (acc : List (List Cell)),
      ∃ ext, pageLoop m acc ps = acc ++ ext := by
  intro ps
  induction ps with
  | nil =>
    intro acc
    exact ⟨[], (List.append_nil acc).symm⟩
  | cons p ps ih =>
    intro acc
    rw [pageLoop]
    split
    · obtain ⟨e1, he1⟩ := appendRows_extends m p.rows acc
      obtain ⟨e2, he2⟩ := ih (appendRows m acc p.rows)
      exact ⟨e1 ++ e2, by rw [he2, he1, List.append_assoc]⟩
    · exact ⟨[], (List.append_nil acc).symm⟩

/-- C8 counterexample: with `MAX_ROWS = 2`, a single page holding a header
and three data rows yields three data rows — the first page is never capped,
so the total exceeds the row limit. -/
theorem C8_counterexample :
    (run_athena 2 [⟨[[some (str "h")], [some (str "a")], [some (str "b")],
        [some (str "c")]]⟩]).2 =
      [[some (str "a")], [some (str "b")], [some (str "c")]] ∧
      ¬((run_athena 2 [⟨[[some (str "h")], [some (str "a")], [some (str "b")],
        [some (str "c")]]⟩]).2.length ≤ 2) :=
  ⟨rfl, by decide⟩

/-- C8 (amended): the fetch excludes the first row of the first page (the
header) and takes every remaining first-page row without applying the cap;
subsequent pages are fetched only while the count is below `MAX_ROWS` and
their rows are appended until the count reaches it, truncating without
error.  Hence the total is at most `max MAX_ROWS (first-page data rows)`,
and at most `MAX_ROWS` whenever the first page's data rows do not already
exceed it. -/
theorem C8_amended_pagination (maxRows : Nat) (p0 : AthenaPage) (ps : List AthenaPage) :
    (run_athena maxRows (p0 :: ps)).1 = (p0.rows.headD []).map (fun c => c.getD []) ∧
    (∃ ext, (run_athena maxRows (p0 :: ps)).2 = p0.rows.drop 1 ++ ext) ∧
    (run_athena maxRows (p0 :: ps)).2.length ≤ max maxRows (p0.rows.drop 1).length ∧
    ((p0.rows.drop 1).length ≤ maxRows →
      (run_athena maxRows (p0 :: ps)).2.length ≤ maxRows) := by
  refine ⟨rfl, ?_, ?_, ?_⟩
  · exact pageLoop_extends maxRows ps (p0.rows.drop 1)
  · exact pageLoop_le maxRows ps (p0.rows.drop 1)
  · intro h
    have h1 := pageLoop_le maxRows ps (p0.rows.drop 1)
    have h2 : max maxRows (p0.rows.drop 1).length = maxRows := Nat.max_eq_left h
    rw [h2] at h1
    exact h1

/-- Witness for the amended C8: two data rows on the first page, then two
further pages with `MAX_ROWS = 3`; fetching stops after exactly three rows
without error. -/
theorem C8_amended_pagination_witness :
    (run_athena 3 [⟨[[some (str "h")], [some (str "a")], [some (str "b")]]⟩,
        ⟨[[some (str "c")], [some (str "d")]]⟩, ⟨[[some (str "e")]]⟩]).2.length = 3 := by
  have h := (C8_amended_pagination 3 ⟨[[some (str "h")], [some (str "a")], [some (str "b")]]⟩
      [⟨[[some (str "c")], [some (str "d")]]⟩, ⟨[[some (str "e")]]⟩]).2.2.2 (by decide)
  have h2 : (run_athena 3 [⟨[[some (str "h")], [some (str "a")], [some (str "b")]]⟩,
      ⟨[[some (str "c")], [some (str "d")]]⟩, ⟨[[some (str "e")]]⟩]).2 =
      [[some (str "a")], [some (str "b")], [some (str "c")]] := rfl
  rw [h2]
  rfl

/-! ## Claim C9: the capture class never admits quoted references -/

theorem captureTable_tok {rest tok rem : List Char}
    (h : captureTable rest = some (tok, rem)) :
    tok ≠ [] ∧ ∀ c ∈ tok, isTableChar c = true := by
  unfold captureTable at h
  dsimp only at h
  split at h
  · exact Option.noConfusion h
  · next hcond =>
    have hinj := Option.some.inj h
    have htok : ((rest.dropWhile isPySpace).takeWhile isTableChar) = tok :=
      congrArg Prod.fst hinj
    constructor
    · intro hnil
      rw [htok, hnil] at hcond
      simp at hcond
    · intro c hc
      rw [← htok] at hc
      exact List.mem_takeWhile_imp hc

theorem tryFromJoin_tok {pw : Bool} {l tok rem : List Char}
    (h : tryFromJoin pw l = some (tok, rem)) :
    tok ≠ [] ∧ ∀ c ∈ tok, isTableChar c = true := by
  unfold tryFromJoin at h
  split at h
  · exact Option.noConfusion h
  · split at h
    · exact captureTable_tok h
    · split at h
      · exact captureTable_tok h
      · exact Option.noConfusion h

theorem findTablesAux_tableChars :
    ∀ (fuel : Nat) (pw : Bool) (cs t : List Char),
      t ∈ findTablesAux fuel pw cs → t ≠ [] ∧ ∀ c ∈ t, isTableChar c = true := by
  intro fuel
  induction fuel with
  | zero =>
    intro pw cs t ht
    simp [findTablesAux] at ht
  | succ f ih =>
    intro pw cs t ht
    cases cs with
    | nil => simp [findTablesAux] at ht
    | cons c rest =>
      rw [findTablesAux] at ht
      cases htry : tryFromJoin pw (c :: rest) with
      | none =>
        rw [htry] at ht
        exact ih _ _ _ ht
      | some pr =>
        obtain ⟨tok, rem⟩ := pr
        rw [htry] at ht
        rcases List.mem_cons.mp ht with ht | ht
        · subst ht
          exact tryFromJoin_tok htry
        · exact ih _ _ _ ht

/-- C9: every token captured by the `FROM`/`JOIN` scan is a nonempty run of
capture-class characters, and no quote character (double quote, backtick,
single quote) is in that class — so a quoted table reference is never
captured and never reaches the schema allow-list check.  In particular a
candidate containing `FROM "other_schema".t` validates even though
`other_schema` is not allow-listed: its table scan captures nothing. -/
theorem C9_quoted_ref_unchecked :
    (∀ (l t : List Char), t ∈ findTables l → t ≠ [] ∧ ∀ c ∈ t, isTableChar c = true) ∧
    isTableChar (Char.ofNat 34) = false ∧
    isTableChar (Char.ofNat 96) = false ∧
    isTableChar (Char.ofNat 39) = false ∧
    sanitize_sql cfg100 (str "SELECT * FROM \"other_schema\".t LIMIT 5") =
      Except.ok (str "SELECT * FROM \"other_schema\".t LIMIT 5") ∧
    findTables (str "SELECT * FROM \"other_schema\".t LIMIT 5") = [] :=
  ⟨fun l t ht => findTablesAux_tableChars l.length false l t ht,
    by decide, by decide, by decide, rfl, rfl⟩

/-- Witness for C9: a concrete captured token instantiates the universal
part. -/
theorem C9_quoted_ref_unchecked_witness :
    str "nyc_taxi.t" ≠ [] ∧ ∀ c ∈ str "nyc_taxi.t", isTableChar c = true :=
  C9_quoted_ref_unchecked.1 (str "select a from nyc_taxi.t") (str "nyc_taxi.t") (by decide)

end NL2SQL
